import Mathlib

/-!
# Unit-commitment and dispatch model: formal embedding

A shallow embedding of the single-unit commitment/dispatch MIP built in the
repository's OR-Tools notebook.  The notebook creates, for each time step `t`
of the horizon `times = (1, 2, 3)`, variables `operating_t`, `start_up_t`,
`shut_down_t` (binary via `IntVar(0, 1)`) and `production_t` (continuous via
`NumVar(0, PROD_MAX)`), adds production-limit and unit-commitment-logic
constraints with `solver.Add`, and maximizes the profit objective `obj_expr`.

Linear expressions and constraints are embedded as inductive syntax mirroring
the Python expression trees handed to the solver, with evaluation over `ℚ`
(the exact-arithmetic counterpart of the solver's numerics); model
construction is parametrized over an arbitrary horizon `(1, …, n)` and
plant/period parameters as the spec's `buildModel` signature requires.
-/

namespace SpotOpt

/-- Decision variables of the model, one of each kind per time index
(`production_t`, `operating_t`, `start_up_t`, `shut_down_t` in the notebook). -/
inductive Var : Type
  | production : ℕ → Var
  | operating : ℕ → Var
  | start_up : ℕ → Var
  | shut_down : ℕ → Var
deriving DecidableEq, Repr

/-- Linear expressions exactly as the notebook's Python code builds them: a
variable, a numeric constant, a constant coefficient times an expression, and
sums and differences of expressions. -/
inductive LinExpr : Type
  | var : Var → LinExpr
  | const : ℚ → LinExpr
  | mul : ℚ → LinExpr → LinExpr
  | add : LinExpr → LinExpr → LinExpr
  | sub : LinExpr → LinExpr → LinExpr
deriving DecidableEq, Repr

/-- A linear constraint registered via `solver.Add`: either an inequality
`lhs ≤ rhs` or an equality `lhs = rhs`. -/
inductive Constr : Type
  | le : LinExpr → LinExpr → Constr
  | eq : LinExpr → LinExpr → Constr
deriving DecidableEq, Repr

/-- A variable declaration: `IntVar lo hi` (`isInt = true`) or `NumVar lo hi`
(`isInt = false`). -/
structure VarDecl : Type where
  v : Var
  lo : ℚ
  hi : ℚ
  isInt : Bool
deriving DecidableEq, Repr

/-- The fully constructed model: declared variables, registered constraints
(in registration order) and the maximization objective. -/
structure ModelInstance : Type where
  vars : List VarDecl
  constraints : List Constr
  objective : LinExpr
deriving DecidableEq, Repr

/-- Plant-level parameters (`PROD_MIN`, `PROD_MAX`, `START_UP_COSTS`). -/
structure PlantParams : Type where
  minOutput : ℚ
  maxOutput : ℚ
  startUpCost : ℚ
deriving DecidableEq, Repr

/-- Per-period parameters (`PROD_COSTS[t]`, `PRICE[t]`). -/
structure PeriodParam : Type where
  variableCost : ℚ
  marketPrice : ℚ
deriving DecidableEq, Repr

/-- The time horizon `(1, …, n)`; the notebook's `times = (1, 2, 3)` is
`horizon 3`. -/
def horizon (n : ℕ) : List ℕ := List.range' 1 n

/-- The variable-creation loop: for each `t` in the horizon,
`operating[t] = IntVar(0, 1)`, `start_up[t] = IntVar(0, 1)`,
`shut_down[t] = IntVar(0, 1)`, `production[t] = NumVar(0, PROD_MAX)`. -/
def varDecls (n : ℕ) (pp : PlantParams) : List VarDecl :=
  (horizon n).flatMap fun t =>
    [⟨.operating t, 0, 1, true⟩, ⟨.start_up t, 0, 1, true⟩,
     ⟨.shut_down t, 0, 1, true⟩, ⟨.production t, 0, pp.maxOutput, false⟩]

/-- The objective terms, as the notebook's list comprehension `obj_expr`:
`(PRICE[t] - PROD_COSTS[t]) * production[t] - START_UP_COSTS * start_up[t]`
for each `t` in the horizon. -/
def obj_expr (n : ℕ) (pp : PlantParams) (qq : ℕ → PeriodParam) : List LinExpr :=
  (horizon n).map fun t =>
    .sub (.mul ((qq t).marketPrice - (qq t).variableCost) (.var (.production t)))
         (.mul pp.startUpCost (.var (.start_up t)))

/-- The notebook's `solver.Sum`: the sum of a list of expressions. -/
def sumExpr (l : List LinExpr) : LinExpr := l.foldr .add (.const 0)

/-- The production-limit loop: for each `t`,
`operating[t] * PROD_MIN <= production[t]` and
`production[t] <= operating[t] * PROD_MAX`. -/
def prodLimitConstrs (n : ℕ) (pp : PlantParams) : List Constr :=
  (horizon n).flatMap fun t =>
    [.le (.mul pp.minOutput (.var (.operating t))) (.var (.production t)),
     .le (.var (.production t)) (.mul pp.maxOutput (.var (.operating t)))]

/-- The unit-commitment-logic loop over `times[1:]`:
`operating[t] == operating[t - 1] + start_up[t] - shut_down[t]`. -/
def commitConstrs (n : ℕ) : List Constr :=
  ((horizon n).drop 1).map fun t =>
    .eq (.var (.operating t))
        (.sub (.add (.var (.operating (t - 1))) (.var (.start_up t)))
              (.var (.shut_down t)))

/-- The first-period boundary constraint `operating[1] == start_up[1]`. -/
def firstPeriodConstr : Constr :=
  .eq (.var (.operating 1)) (.var (.start_up 1))

/-- Model construction exactly as the notebook performs it (variables, then
objective, then production limits, then commitment logic and the first-period
constraint), generalized over the horizon length and parameters. -/
def buildCore (n : ℕ) (pp : PlantParams) (qq : ℕ → PeriodParam) : ModelInstance :=
  { vars := varDecls n pp
    constraints := prodLimitConstrs n pp ++ (commitConstrs n ++ [firstPeriodConstr])
    objective := sumExpr (obj_expr n pp qq) }

/-- An assignment of a rational value to every variable. -/
def Assignment : Type := Var → ℚ

/-- Evaluation of a linear expression under an assignment. -/
def evalExpr (a : Assignment) : LinExpr → ℚ
  | .var v => a v
  | .const c => c
  | .mul c e => c * evalExpr a e
  | .add e1 e2 => evalExpr a e1 + evalExpr a e2
  | .sub e1 e2 => evalExpr a e1 - evalExpr a e2

/-- Satisfaction of a single constraint. -/
def constrSat (a : Assignment) : Constr → Prop
  | .le l r => evalExpr a l ≤ evalExpr a r
  | .eq l r => evalExpr a l = evalExpr a r

instance (a : Assignment) (c : Constr) : Decidable (constrSat a c) := by
  cases c <;> (unfold constrSat; infer_instance)

/-- Satisfaction of a variable declaration: the value lies within the bounds
and, for an `IntVar`, is an integer (denominator 1). -/
def declSat (a : Assignment) (d : VarDecl) : Prop :=
  d.lo ≤ a d.v ∧ a d.v ≤ d.hi ∧ (d.isInt = true → (a d.v).den = 1)

instance (a : Assignment) (d : VarDecl) : Decidable (declSat a d) := by
  unfold declSat; infer_instance

/-- Feasibility: the assignment satisfies every variable domain and every
registered constraint of the model. -/
def Feasible (m : ModelInstance) (a : Assignment) : Prop :=
  (∀ d ∈ m.vars, declSat a d) ∧ (∀ c ∈ m.constraints, constrSat a c)

instance (m : ModelInstance) (a : Assignment) : Decidable (Feasible m a) := by
  unfold Feasible; infer_instance

/-- The objective value of an assignment for a model. -/
def objValue (m : ModelInstance) (a : Assignment) : ℚ :=
  evalExpr a m.objective

/-- An assignment is optimal when it is feasible and no feasible assignment
attains a larger objective value (the model maximizes). -/
def IsOptimal (m : ModelInstance) (a : Assignment) : Prop :=
  Feasible m a ∧ ∀ b : Assignment, Feasible m b → objValue m b ≤ objValue m a

/-! ## The notebook's worked example -/

/-- Notebook constant `PROD_MIN = 10  # in MW`. -/
def PROD_MIN : ℚ := 10

/-- Notebook constant `PROD_MAX = 100  # in MW`. -/
def PROD_MAX : ℚ := 100

/-- Notebook constant `PROD_COSTS`: variable cost 120 EUR/MWh in every period. -/
def PROD_COSTS : ℕ → ℚ := fun _ => 120

/-- Notebook constant `START_UP_COSTS = 10  # in EUR`. -/
def START_UP_COSTS : ℚ := 10

/-- Notebook constant `PRICE`: market prices 200, 100, 200 EUR/MWh. -/
def PRICE : ℕ → ℚ := fun t => if t = 1 then 200 else if t = 2 then 100 else 200

/-- The notebook's plant parameters. -/
def examplePlant : PlantParams := ⟨PROD_MIN, PROD_MAX, START_UP_COSTS⟩

/-- The notebook's per-period parameters. -/
def examplePeriods : ℕ → PeriodParam := fun t => ⟨PROD_COSTS t, PRICE t⟩

/-- The model the notebook builds: `times = (1, 2, 3)` with the parameters
above. -/
def exampleModel : ModelInstance := buildCore 3 examplePlant examplePeriods

/-- The schedule the notebook's solve reports:
`production = (100, 0, 100)`, `operating = (1, 0, 1)`, `start_up = (1, 0, 1)`,
`shut_down = (0, 1, 0)`. -/
def exampleAssignment : Assignment := fun v =>
  match v with
  | .production 1 => 100
  | .production 3 => 100
  | .operating 1 => 1
  | .operating 3 => 1
  | .start_up 1 => 1
  | .start_up 3 => 1
  | .shut_down 2 => 1
  | _ => 0

/-- The all-off assignment: every variable is 0. -/
def zeroAssignment : Assignment := fun _ => 0

/-- Point update of an assignment at one variable. -/
def updateVar (a : Assignment) (v : Var) (q : ℚ) : Assignment :=
  fun w => if w = v then q else a w

/-- Whether a linear expression mentions a variable. -/
def LinExpr.mentions : LinExpr → Var → Bool
  | .var w, v => w == v
  | .const _, _ => false
  | .mul _ e, v => e.mentions v
  | .add e1 e2, v => e1.mentions v || e2.mentions v
  | .sub e1 e2, v => e1.mentions v || e2.mentions v

/-- Whether a constraint mentions a variable. -/
def Constr.mentions : Constr → Var → Bool
  | .le l r, v => l.mentions v || r.mentions v
  | .eq l r, v => l.mentions v || r.mentions v

/-- The spec's objective formula, written from the spec's words:
`Σ_t [ (marketPrice[t] − variableCost[t]) · production[t] − startUpCost · startUp[t] ]`. -/
def objectiveSpec (n : ℕ) (pp : PlantParams) (qq : ℕ → PeriodParam)
    (a : Assignment) : ℚ :=
  ((horizon n).map fun t =>
    ((qq t).marketPrice - (qq t).variableCost) * a (.production t) -
      pp.startUpCost * a (.start_up t)).sum

/-- Modelled from the spec: the `InvalidParameterError` of the error taxonomy
(§7), raised by parameter validation; the notebook contains no validation
code. -/
inductive BuildError : Type
  | invalidParameter : BuildError
deriving DecidableEq, Repr

/-- Modelled from the spec: the validated `buildModel` operation (§4.1).  The
notebook performs only the model construction (`buildCore`); the fail-fast
validation — empty horizon, `minOutput ≥ maxOutput`, missing `periodParams`
entry — exists only in the spec.  The spec's non-finite cost/price check is
vacuous in this exact-rational embedding, where every `ℚ` value is finite.
Validation is a pure computation returning `Except`; no solver interaction
occurs anywhere in it. -/
def buildModel (n : ℕ) (pp : PlantParams) (qq : ℕ → Option PeriodParam) :
    Except BuildError ModelInstance :=
  if n = 0 then .error .invalidParameter
  else if pp.maxOutput ≤ pp.minOutput then .error .invalidParameter
  else if (horizon n).any (fun t => (qq t).isNone) then .error .invalidParameter
  else .ok (buildCore n pp fun t => (qq t).getD ⟨0, 0⟩)

/-- Solver termination statuses of the SolutionResult taxonomy (§3). -/
inductive SolveStatus : Type
  | optimal : SolveStatus
  | feasible : SolveStatus
  | infeasible : SolveStatus
  | unbounded : SolveStatus
  | abnormal : SolveStatus
  | notSolved : SolveStatus
deriving DecidableEq, Repr

/-- Whether a status carries a solution (`Optimal` or `Feasible`). -/
def SolveStatus.hasSolution : SolveStatus → Bool
  | .optimal => true
  | .feasible => true
  | _ => false

/-- The result of one solve invocation: a status, and — exactly when the
status carries a solution — the objective value with the per-variable
assigned values. -/
structure SolutionResult : Type where
  status : SolveStatus
  solution : Option (ℚ × Assignment)

/-- Modelled from the spec: the `solve` operation (§4.1) as it maps the
external solver's outcome (a termination status and, on success, an
assignment) into a `SolutionResult`: when the status is `Optimal` or
`Feasible` it reads every decision variable's value and the objective value
into the result; otherwise the numeric fields are absent. -/
def solve (m : ModelInstance) (st : SolveStatus) (vals : Assignment) :
    SolutionResult :=
  if st.hasSolution then ⟨st, some (objValue m vals, vals)⟩ else ⟨st, none⟩

/-- Modelled from the spec: the `UnsolvedModelError` of the error taxonomy
(§7). -/
inductive InterpretError : Type
  | unsolvedModel : InterpretError
deriving DecidableEq, Repr

/-- A caller-friendly schedule: per period, the production level, whether the
unit is on, and whether a start-up/shut-down event occurred. -/
structure DispatchSchedule : Type where
  productionOf : ℕ → ℚ
  unitOn : ℕ → Bool
  startUpEvent : ℕ → Bool
  shutDownEvent : ℕ → Bool

/-- The schedule read off from an assignment of the decision variables. -/
def mkSchedule (a : Assignment) : DispatchSchedule :=
  ⟨fun t => a (.production t), fun t => a (.operating t) == 1,
   fun t => a (.start_up t) == 1, fun t => a (.shut_down t) == 1⟩

/-- Modelled from the spec: the `interpret` operation (§4.1), a pure
transformation of a `SolutionResult` into a `DispatchSchedule` that fails
with `UnsolvedModelError` unless the status is `Optimal` or `Feasible`. -/
def interpret (r : SolutionResult) : Except InterpretError DispatchSchedule :=
  match r.status, r.solution with
  | .optimal, some s => .ok (mkSchedule s.2)
  | .feasible, some s => .ok (mkSchedule s.2)
  | _, _ => .error .unsolvedModel

/-- A rational is binary when it lies in `[0, 1]` and is an integer; this is
what `IntVar(0, 1)` declares. -/
def Binary (q : ℚ) : Prop := 0 ≤ q ∧ q ≤ 1 ∧ q.den = 1

theorem Binary.eq_zero_or_one {q : ℚ} (h : Binary q) : q = 0 ∨ q = 1 := by
  obtain ⟨h0, h1, hd⟩ := h
  have hq : q = (q.num : ℚ) := ((Rat.den_eq_one_iff q).mp hd).symm
  have h0n : (0 : ℤ) ≤ q.num := by exact_mod_cast hq ▸ h0
  have h1n : q.num ≤ 1 := by exact_mod_cast hq ▸ h1
  interval_cases h : q.num
  · left; rw [hq]; norm_num
  · right; rw [hq]; norm_num

theorem mem_horizon {t n : ℕ} : t ∈ horizon n ↔ 1 ≤ t ∧ t ≤ n := by
  simp only [horizon, List.mem_range'_1]
  omega

theorem mem_horizon_drop_one {t n : ℕ} : t ∈ (horizon n).drop 1 ↔ 2 ≤ t ∧ t ≤ n := by
  cases n with
  | zero => simp [horizon]; omega
  | succ m =>
      rw [horizon, List.range'_succ]
      simp only [List.drop_succ_cons, List.drop_zero, List.mem_range'_1]
      omega

theorem forall_mem_varDecls_iff (n : ℕ) (pp : PlantParams) (a : Assignment) :
    (∀ d ∈ varDecls n pp, declSat a d) ↔
      ∀ t, 1 ≤ t → t ≤ n →
        Binary (a (.operating t)) ∧ Binary (a (.start_up t)) ∧
        Binary (a (.shut_down t)) ∧
        0 ≤ a (.production t) ∧ a (.production t) ≤ pp.maxOutput := by
  constructor
  · intro h t h1 h2
    have ht : t ∈ horizon n := mem_horizon.mpr ⟨h1, h2⟩
    have hu := h ⟨.operating t, 0, 1, true⟩
      (List.mem_flatMap.mpr ⟨t, ht, by simp⟩)
    have hv := h ⟨.start_up t, 0, 1, true⟩
      (List.mem_flatMap.mpr ⟨t, ht, by simp⟩)
    have hw := h ⟨.shut_down t, 0, 1, true⟩
      (List.mem_flatMap.mpr ⟨t, ht, by simp⟩)
    have hp := h ⟨.production t, 0, pp.maxOutput, false⟩
      (List.mem_flatMap.mpr ⟨t, ht, by simp⟩)
    simp only [declSat, Binary] at hu hv hw hp ⊢
    exact ⟨⟨hu.1, hu.2.1, hu.2.2 trivial⟩, ⟨hv.1, hv.2.1, hv.2.2 trivial⟩,
           ⟨hw.1, hw.2.1, hw.2.2 trivial⟩, hp.1, hp.2.1⟩
  · intro h d hd
    obtain ⟨t, ht, hdm⟩ := List.mem_flatMap.mp hd
    obtain ⟨h1, h2⟩ := mem_horizon.mp ht
    obtain ⟨hu, hv, hw, hp0, hp1⟩ := h t h1 h2
    simp only [List.mem_cons, List.not_mem_nil, or_false] at hdm
    rcases hdm with rfl | rfl | rfl | rfl <;>
      simp only [declSat, Binary] at hu hv hw ⊢
    · exact ⟨hu.1, hu.2.1, fun _ => hu.2.2⟩
    · exact ⟨hv.1, hv.2.1, fun _ => hv.2.2⟩
    · exact ⟨hw.1, hw.2.1, fun _ => hw.2.2⟩
    · exact ⟨hp0, hp1, by simp⟩

theorem forall_mem_constraints_iff (n : ℕ) (pp : PlantParams)
    (qq : ℕ → PeriodParam) (a : Assignment) :
    (∀ c ∈ (buildCore n pp qq).constraints, constrSat a c) ↔
      (∀ t, 1 ≤ t → t ≤ n →
        pp.minOutput * a (.operating t) ≤ a (.production t) ∧
        a (.production t) ≤ pp.maxOutput * a (.operating t)) ∧
      (∀ t, 2 ≤ t → t ≤ n →
        a (.operating t) =
          a (.operating (t - 1)) + a (.start_up t) - a (.shut_down t)) ∧
      a (.operating 1) = a (.start_up 1) := by
  simp only [buildCore, List.mem_append, List.mem_singleton]
  constructor
  · intro h
    refine ⟨fun t h1 h2 => ?_, fun t h1 h2 => ?_, ?_⟩
    · have ht : t ∈ horizon n := mem_horizon.mpr ⟨by omega, h2⟩
      have hle1 := h (Constr.le (.mul pp.minOutput (.var (.operating t)))
          (.var (.production t)))
        (Or.inl (List.mem_flatMap.mpr ⟨t, ht, by simp⟩))
      have hle2 := h (Constr.le (.var (.production t))
          (.mul pp.maxOutput (.var (.operating t))))
        (Or.inl (List.mem_flatMap.mpr ⟨t, ht, by simp⟩))
      simp only [constrSat, evalExpr] at hle1 hle2
      exact ⟨hle1, hle2⟩
    · have ht : t ∈ (horizon n).drop 1 := mem_horizon_drop_one.mpr ⟨h1, h2⟩
      have hc := h _ (Or.inr (Or.inl (List.mem_map.mpr ⟨t, ht, rfl⟩)))
      simpa only [constrSat, evalExpr] using hc
    · have hc := h firstPeriodConstr (Or.inr (Or.inr rfl))
      simpa only [firstPeriodConstr, constrSat, evalExpr] using hc
  · intro ⟨hprod, hcommit, hfirst⟩ c hc
    rcases hc with hc | hc | hc
    · obtain ⟨t, ht, hcm⟩ := List.mem_flatMap.mp hc
      obtain ⟨h1, h2⟩ := mem_horizon.mp ht
      simp only [List.mem_cons, List.not_mem_nil, or_false] at hcm
      rcases hcm with rfl | rfl <;> simp only [constrSat, evalExpr]
      · exact (hprod t h1 h2).1
      · exact (hprod t h1 h2).2
    · obtain ⟨t, ht, rfl⟩ := List.mem_map.mp hc
      obtain ⟨h1, h2⟩ := mem_horizon_drop_one.mp ht
      simp only [constrSat, evalExpr]
      exact hcommit t h1 h2
    · subst hc
      simpa only [firstPeriodConstr, constrSat, evalExpr] using hfirst

/-- Semantic characterization of feasibility for the built model: variable
domains, production limits, commitment logic and the first-period boundary
constraint. -/
theorem feasible_buildCore_iff (n : ℕ) (pp : PlantParams)
    (qq : ℕ → PeriodParam) (a : Assignment) :
    Feasible (buildCore n pp qq) a ↔
      (∀ t, 1 ≤ t → t ≤ n →
        Binary (a (.operating t)) ∧ Binary (a (.start_up t)) ∧
        Binary (a (.shut_down t)) ∧
        0 ≤ a (.production t) ∧ a (.production t) ≤ pp.maxOutput) ∧
      (∀ t, 1 ≤ t → t ≤ n →
        pp.minOutput * a (.operating t) ≤ a (.production t) ∧
        a (.production t) ≤ pp.maxOutput * a (.operating t)) ∧
      (∀ t, 2 ≤ t → t ≤ n →
        a (.operating t) =
          a (.operating (t - 1)) + a (.start_up t) - a (.shut_down t)) ∧
      a (.operating 1) = a (.start_up 1) := by
  rw [Feasible, forall_mem_constraints_iff]
  rw [show (buildCore n pp qq).vars = varDecls n pp from rfl,
      forall_mem_varDecls_iff]

/-- Evaluating `solver.Sum` of a list of expressions sums the evaluations. -/
theorem evalExpr_sumExpr (a : Assignment) (l : List LinExpr) :
    evalExpr a (sumExpr l) = (l.map (evalExpr a)).sum := by
  induction l with
  | nil => simp [sumExpr, evalExpr]
  | cons e l ih => simp [sumExpr, evalExpr] at ih ⊢; rw [ih]

/-- The objective value of the built model is the notebook's profit formula. -/
theorem objValue_buildCore (n : ℕ) (pp : PlantParams) (qq : ℕ → PeriodParam)
    (a : Assignment) :
    objValue (buildCore n pp qq) a =
      ((horizon n).map fun t =>
        ((qq t).marketPrice - (qq t).variableCost) * a (.production t) -
          pp.startUpCost * a (.start_up t)).sum := by
  rw [objValue, show (buildCore n pp qq).objective = sumExpr (obj_expr n pp qq) from rfl,
      evalExpr_sumExpr, obj_expr, List.map_map]
  refine congrArg List.sum (List.map_congr_left fun t _ => ?_)
  simp [evalExpr]


theorem exampleModel_eq : exampleModel = buildCore 3 examplePlant examplePeriods := rfl

theorem horizon_three : horizon 3 = [1, 2, 3] := rfl

/-- The objective value of the example model, written out over the three
periods: `(200-120)·p₁ - 10·v₁ + (100-120)·p₂ - 10·v₂ + (200-120)·p₃ - 10·v₃`. -/
theorem objValue_example (a : Assignment) :
    objValue exampleModel a =
      80 * a (.production 1) - 10 * a (.start_up 1) +
        (-20 * a (.production 2) - 10 * a (.start_up 2)) +
        (80 * a (.production 3) - 10 * a (.start_up 3)) := by
  rw [exampleModel_eq, objValue_buildCore, horizon_three]
  norm_num [examplePeriods, examplePlant, PRICE, PROD_COSTS, START_UP_COSTS]
  ring

/-- No feasible point of the example model earns more than 15980. -/
theorem objValue_example_le (a : Assignment) (h : Feasible exampleModel a) :
    objValue exampleModel a ≤ 15980 := by
  rw [exampleModel_eq] at h
  rw [feasible_buildCore_iff] at h
  obtain ⟨hdom, hprod, hcommit, hfirst⟩ := h
  obtain ⟨hu1, hv1, hw1, hp1⟩ := hdom 1 (by norm_num) (by norm_num)
  obtain ⟨hu2, hv2, hw2, hp2⟩ := hdom 2 (by norm_num) (by norm_num)
  obtain ⟨hu3, hv3, hw3, hp3⟩ := hdom 3 (by norm_num) (by norm_num)
  obtain ⟨hpl1, hpu1⟩ := hprod 1 (by norm_num) (by norm_num)
  obtain ⟨hpl2, hpu2⟩ := hprod 2 (by norm_num) (by norm_num)
  obtain ⟨hpl3, hpu3⟩ := hprod 3 (by norm_num) (by norm_num)
  have hc2 := hcommit 2 (by norm_num) (by norm_num)
  have hc3 := hcommit 3 (by norm_num) (by norm_num)
  norm_num [examplePlant, PROD_MIN, PROD_MAX] at hpl1 hpu1 hpl2 hpu2 hpl3 hpu3 hp1 hp2 hp3
  norm_num at hc2 hc3
  rw [objValue_example]
  obtain ⟨hv10, hv11, -⟩ := hv1
  obtain ⟨hv20, hv21, -⟩ := hv2
  obtain ⟨hv30, hv31, -⟩ := hv3
  obtain ⟨hw20, hw21, -⟩ := hw2
  obtain ⟨hw30, hw31, -⟩ := hw3
  obtain ⟨hu10, hu11, -⟩ := hu1
  obtain ⟨hu20, hu21, -⟩ := hu2
  obtain ⟨hu30, hu31, -⟩ := hu3
  linarith

/-- The notebook's reported schedule is feasible for the example model. -/
theorem exampleAssignment_feasible : Feasible exampleModel exampleAssignment := by
  rw [exampleModel_eq, feasible_buildCore_iff]
  refine ⟨?_, ?_, ?_, ?_⟩
  · intro t h1 h2
    interval_cases t <;>
      norm_num [Binary, exampleAssignment, examplePlant, PROD_MAX]
  · intro t h1 h2
    interval_cases t <;>
      norm_num [exampleAssignment, examplePlant, PROD_MAX, PROD_MIN]
  · intro t h1 h2
    interval_cases t <;> norm_num [exampleAssignment]
  · norm_num [exampleAssignment]

/-- The notebook's reported schedule earns exactly 15980. -/
theorem objValue_exampleAssignment :
    objValue exampleModel exampleAssignment = 15980 := by
  rw [objValue_example]
  norm_num [exampleAssignment]

/-- C1: For the worked example with 3 periods, `minOutput = 10`,
`maxOutput = 100`, `variableCost = 120` in every period, `startUpCost = 10`
and `marketPrice = {1: 200, 2: 100, 3: 200}`, the built model's optimal
objective value is exactly 15980, attained by the per-period values
`production = (100, 0, 100)`, `operating = (1, 0, 1)`,
`start_up = (1, 0, 1)`, `shut_down = (0, 1, 0)`: that schedule is feasible,
earns exactly 15980, and no feasible schedule earns more. -/
theorem worked_example_optimal_solution :
    IsOptimal exampleModel exampleAssignment ∧
    objValue exampleModel exampleAssignment = 15980 ∧
    exampleAssignment (.production 1) = 100 ∧
    exampleAssignment (.production 2) = 0 ∧
    exampleAssignment (.production 3) = 100 ∧
    exampleAssignment (.operating 1) = 1 ∧
    exampleAssignment (.operating 2) = 0 ∧
    exampleAssignment (.operating 3) = 1 ∧
    exampleAssignment (.start_up 1) = 1 ∧
    exampleAssignment (.start_up 2) = 0 ∧
    exampleAssignment (.start_up 3) = 1 ∧
    exampleAssignment (.shut_down 1) = 0 ∧
    exampleAssignment (.shut_down 2) = 1 ∧
    exampleAssignment (.shut_down 3) = 0 := by
  refine ⟨⟨exampleAssignment_feasible, fun b hb => ?_⟩,
    objValue_exampleAssignment, ?_, ?_, ?_, ?_, ?_, ?_, ?_, ?_, ?_, ?_, ?_, ?_⟩
  · rw [objValue_exampleAssignment]
    exact objValue_example_le b hb
  all_goals rfl

theorem updateVar_apply (a : Assignment) (v : Var) (q : ℚ) :
    updateVar a v q v = q := if_pos rfl

theorem updateVar_apply_ne (a : Assignment) (v : Var) (q : ℚ) {w : Var}
    (hw : w ≠ v) : updateVar a v q w = a w := if_neg hw

theorem mentions_sumExpr (l : List LinExpr) (v : Var) :
    (sumExpr l).mentions v = l.any (fun e => e.mentions v) := by
  induction l with
  | nil => simp [sumExpr, LinExpr.mentions]
  | cons e l ih => simp [sumExpr, LinExpr.mentions] at ih ⊢; rw [ih]

/-- C2: The objective of the built model is
`Σ_t [ (marketPrice[t] − variableCost[t]) · production[t] − startUpCost · startUp[t] ]`
for every valid input and every assignment, and shut-down events contribute no
cost term: the objective value depends only on the production and start-up
values. -/
theorem objective_is_spec_formula (n : ℕ) (pp : PlantParams)
    (qq : ℕ → PeriodParam) :
    (∀ a : Assignment, objValue (buildCore n pp qq) a = objectiveSpec n pp qq a) ∧
    (∀ a b : Assignment,
      (∀ t, a (.production t) = b (.production t)) →
      (∀ t, a (.start_up t) = b (.start_up t)) →
      objValue (buildCore n pp qq) a = objValue (buildCore n pp qq) b) := by
  constructor
  · intro a
    rw [objValue_buildCore, objectiveSpec]
  · intro a b hp hv
    rw [objValue_buildCore, objValue_buildCore]
    refine congrArg List.sum (List.map_congr_left fun t _ => ?_)
    rw [hp t, hv t]

theorem objective_is_spec_formula_witness :
    objValue exampleModel exampleAssignment =
      objectiveSpec 3 examplePlant examplePeriods exampleAssignment ∧
    objValue exampleModel exampleAssignment =
      objValue exampleModel (updateVar exampleAssignment (.shut_down 1) 1) :=
  ⟨(objective_is_spec_formula 3 examplePlant examplePeriods).1 exampleAssignment,
   (objective_is_spec_formula 3 examplePlant examplePeriods).2 exampleAssignment
     (updateVar exampleAssignment (.shut_down 1) 1)
     (fun t => (updateVar_apply_ne _ _ _ (by simp)).symm)
     (fun t => (updateVar_apply_ne _ _ _ (by simp)).symm)⟩

/-- C4: In every feasible solution of the built model, the commitment-logic
equalities hold exactly: `operating[t] = operating[t-1] + startUp[t] −
shutDown[t]` for every period after the first, and `operating[1] =
startUp[1]` for the first period. -/
theorem commitment_logic_holds (n : ℕ) (pp : PlantParams)
    (qq : ℕ → PeriodParam) (a : Assignment)
    (h : Feasible (buildCore n pp qq) a) :
    (∀ t, 2 ≤ t → t ≤ n →
      a (.operating t) =
        a (.operating (t - 1)) + a (.start_up t) - a (.shut_down t)) ∧
    a (.operating 1) = a (.start_up 1) := by
  rw [feasible_buildCore_iff] at h
  exact ⟨h.2.2.1, h.2.2.2⟩

theorem commitment_logic_holds_witness :
    (∀ t, 2 ≤ t → t ≤ 3 →
      exampleAssignment (.operating t) =
        exampleAssignment (.operating (t - 1)) +
          exampleAssignment (.start_up t) - exampleAssignment (.shut_down t)) ∧
    exampleAssignment (.operating 1) = exampleAssignment (.start_up 1) :=
  commitment_logic_holds 3 examplePlant examplePeriods exampleAssignment
    exampleAssignment_feasible

/-- C5: In every feasible solution of the built model, a period in which the
unit is not operating has zero production. -/
theorem off_implies_no_production (n : ℕ) (pp : PlantParams)
    (qq : ℕ → PeriodParam) (a : Assignment) (t : ℕ)
    (h : Feasible (buildCore n pp qq) a) (h1 : 1 ≤ t) (h2 : t ≤ n)
    (h0 : a (.operating t) = 0) : a (.production t) = 0 := by
  rw [feasible_buildCore_iff] at h
  have hd := (h.1 t h1 h2).2.2.2.1
  have hp := (h.2.1 t h1 h2).2
  rw [h0, mul_zero] at hp
  linarith

theorem off_implies_no_production_witness :
    exampleAssignment (.operating 2) = 0 ∧
    exampleAssignment (.production 2) = 0 :=
  ⟨rfl, off_implies_no_production 3 examplePlant examplePeriods
    exampleAssignment 2 exampleAssignment_feasible (by norm_num) (by norm_num)
    rfl⟩

/-- C9: For every valid input (`0 ≤ minOutput < maxOutput`), the all-zero
assignment satisfies every constraint of the built model, its objective value
is 0, and consequently every optimal assignment has objective value at least
0 — the built model is never infeasible. -/
theorem zero_schedule_feasible (n : ℕ) (pp : PlantParams)
    (qq : ℕ → PeriodParam) (hmin : 0 ≤ pp.minOutput)
    (hlt : pp.minOutput < pp.maxOutput) :
    Feasible (buildCore n pp qq) zeroAssignment ∧
    objValue (buildCore n pp qq) zeroAssignment = 0 ∧
    ∀ a, IsOptimal (buildCore n pp qq) a →
      0 ≤ objValue (buildCore n pp qq) a := by
  have hfeas : Feasible (buildCore n pp qq) zeroAssignment := by
    rw [feasible_buildCore_iff]
    refine ⟨fun t _ _ => ?_, fun t _ _ => ?_, fun t _ _ => ?_, ?_⟩
    · norm_num [zeroAssignment, Binary]
      linarith
    · norm_num [zeroAssignment]
    · norm_num [zeroAssignment]
    · rfl
  have hobj : objValue (buildCore n pp qq) zeroAssignment = 0 := by
    rw [objValue_buildCore]
    apply List.sum_eq_zero
    intro x hx
    obtain ⟨t, -, rfl⟩ := List.mem_map.mp hx
    norm_num [zeroAssignment]
  refine ⟨hfeas, hobj, fun a ha => ?_⟩
  have := ha.2 zeroAssignment hfeas
  rw [hobj] at this
  exact this

theorem zero_schedule_feasible_witness :
    Feasible exampleModel zeroAssignment ∧
    objValue exampleModel zeroAssignment = 0 ∧
    ∀ a, IsOptimal exampleModel a → 0 ≤ objValue exampleModel a :=
  zero_schedule_feasible 3 examplePlant examplePeriods
    (by norm_num [examplePlant, PROD_MIN])
    (by norm_num [examplePlant, PROD_MIN, PROD_MAX])

/-- C10: The first-period shut-down variable is unconstrained: no registered
constraint of the built model mentions `shut_down[1]`, the objective does not
mention it, and replacing its value in any feasible solution by either binary
value yields another feasible solution with the same objective value. -/
theorem shut_down_first_unconstrained (n : ℕ) (pp : PlantParams)
    (qq : ℕ → PeriodParam) (a : Assignment) (b : ℚ)
    (h : Feasible (buildCore n pp qq) a) (hb : b = 0 ∨ b = 1) :
    (∀ c ∈ (buildCore n pp qq).constraints,
      c.mentions (.shut_down 1) = false) ∧
    (buildCore n pp qq).objective.mentions (.shut_down 1) = false ∧
    Feasible (buildCore n pp qq) (updateVar a (.shut_down 1) b) ∧
    objValue (buildCore n pp qq) (updateVar a (.shut_down 1) b) =
      objValue (buildCore n pp qq) a := by
  refine ⟨?_, ?_, ?_, ?_⟩
  · intro c hc
    simp only [buildCore, List.mem_append, List.mem_singleton] at hc
    rcases hc with hc | hc | rfl
    · obtain ⟨t, -, hcm⟩ := List.mem_flatMap.mp hc
      simp only [List.mem_cons, List.not_mem_nil, or_false] at hcm
      rcases hcm with rfl | rfl <;>
        simp [Constr.mentions, LinExpr.mentions]
    · obtain ⟨t, ht, rfl⟩ := List.mem_map.mp hc
      have h2 := (mem_horizon_drop_one.mp ht).1
      simp [Constr.mentions, LinExpr.mentions]
      omega
    · simp [firstPeriodConstr, Constr.mentions, LinExpr.mentions]
  · rw [show (buildCore n pp qq).objective = sumExpr (obj_expr n pp qq) from rfl,
        mentions_sumExpr]
    simp [obj_expr, Constr.mentions, LinExpr.mentions]
  · obtain ⟨hdom, hprod, hcommit, hfirst⟩ := (feasible_buildCore_iff n pp qq a).mp h
    rw [feasible_buildCore_iff]
    refine ⟨fun t h1 h2 => ?_, fun t h1 h2 => ?_, fun t h1 h2 => ?_, ?_⟩
    · obtain ⟨hu, hv, hw, hp0, hp1⟩ := hdom t h1 h2
      refine ⟨?_, ?_, ?_, ?_, ?_⟩
      · rwa [updateVar_apply_ne _ _ _ (by simp)]
      · rwa [updateVar_apply_ne _ _ _ (by simp)]
      · by_cases ht : t = 1
        · subst ht
          rw [updateVar_apply]
          rcases hb with rfl | rfl <;> norm_num [Binary]
        · rwa [updateVar_apply_ne _ _ _ (by simp [ht])]
      · rwa [updateVar_apply_ne _ _ _ (by simp)]
      · rwa [updateVar_apply_ne _ _ _ (by simp)]
    · obtain ⟨hl, hr⟩ := hprod t h1 h2
      rw [updateVar_apply_ne _ _ _ (by simp : Var.production t ≠ _),
          updateVar_apply_ne _ _ _ (by simp : Var.operating t ≠ _)]
      exact ⟨hl, hr⟩
    · have hc := hcommit t h1 h2
      rw [updateVar_apply_ne _ _ _ (by simp : Var.operating t ≠ _),
          updateVar_apply_ne _ _ _ (by simp : Var.operating (t - 1) ≠ _),
          updateVar_apply_ne _ _ _ (by simp : Var.start_up t ≠ _),
          updateVar_apply_ne _ _ _ (by simp; omega : Var.shut_down t ≠ _)]
      exact hc
    · rw [updateVar_apply_ne _ _ _ (by simp : Var.operating 1 ≠ _),
          updateVar_apply_ne _ _ _ (by simp : Var.start_up 1 ≠ _)]
      exact hfirst
  · rw [objValue_buildCore, objValue_buildCore]
    refine congrArg List.sum (List.map_congr_left fun t _ => ?_)
    rw [updateVar_apply_ne _ _ _ (by simp), updateVar_apply_ne _ _ _ (by simp)]

theorem shut_down_first_unconstrained_witness :
    Feasible exampleModel (updateVar exampleAssignment (.shut_down 1) 1) ∧
    objValue exampleModel (updateVar exampleAssignment (.shut_down 1) 1) =
      objValue exampleModel exampleAssignment :=
  ⟨(shut_down_first_unconstrained 3 examplePlant examplePeriods
      exampleAssignment 1 exampleAssignment_feasible (Or.inr rfl)).2.2.1,
   (shut_down_first_unconstrained 3 examplePlant examplePeriods
      exampleAssignment 1 exampleAssignment_feasible (Or.inr rfl)).2.2.2⟩

/-- C6: `buildModel` fails with `InvalidParameterError` exactly when the
horizon is empty, `minOutput ≥ maxOutput`, or `periodParams` misses an entry
for some index of the horizon; for all other inputs it returns the
constructed model (it never fails).  Validation is a pure computation
performed before any solver interaction; non-finite costs or prices do not
exist in the exact-rational embedding. -/
theorem buildModel_invalid_iff (n : ℕ) (pp : PlantParams)
    (qq : ℕ → Option PeriodParam) :
    (buildModel n pp qq = .error .invalidParameter ↔
      n = 0 ∨ pp.minOutput ≥ pp.maxOutput ∨ ∃ t ∈ horizon n, qq t = none) ∧
    (buildModel n pp qq = .error .invalidParameter ∨
      buildModel n pp qq = .ok (buildCore n pp fun t => (qq t).getD ⟨0, 0⟩)) := by
  constructor
  · rw [buildModel]
    split
    · simp only [true_iff]
      left
      assumption
    · split
      · simp only [true_iff]
        right; left
        assumption
      · split
        · simp only [true_iff]
          right; right
          rename_i hany
          obtain ⟨t, ht, hnone⟩ := List.any_eq_true.mp hany
          exact ⟨t, ht, Option.isNone_iff_eq_none.mp hnone⟩
        · simp only [reduceCtorEq, false_iff]
          push_neg
          rename_i hn hle hany
          refine ⟨hn, lt_of_not_le hle, fun t ht => ?_⟩
          by_contra hnone
          exact hany (List.any_eq_true.mpr ⟨t, ht,
            Option.isNone_iff_eq_none.mpr hnone⟩)
  · rw [buildModel]
    split
    · left; rfl
    · split
      · left; rfl
      · split
        · left; rfl
        · right; rfl

/-- C7: a `SolutionResult` carries an objective value and variable values
exactly when its status is `Optimal` or `Feasible`, and `interpret` fails
with `UnsolvedModelError` exactly when the status is neither. -/
theorem interpret_fails_iff (m : ModelInstance) (st : SolveStatus)
    (vals : Assignment) :
    (interpret (solve m st vals) = .error .unsolvedModel ↔
      st ≠ .optimal ∧ st ≠ .feasible) ∧
    ((solve m st vals).solution.isSome = true ↔
      st = .optimal ∨ st = .feasible) ∧
    (solve m st vals).status = st := by
  cases st <;>
    simp [solve, interpret, SolveStatus.hasSolution]

/-- C8: model construction is deterministic — two `buildModel` calls on
identical inputs produce identical models, and solving these identical
models (with the solver fixed as a deterministic function of the model and
the solver outcome) yields identical objective values and identical
per-period variable assignments. -/
theorem buildModel_deterministic (n₁ n₂ : ℕ) (pp₁ pp₂ : PlantParams)
    (qq₁ qq₂ : ℕ → Option PeriodParam) (hn : n₁ = n₂) (hpp : pp₁ = pp₂)
    (hqq : ∀ t, qq₁ t = qq₂ t) :
    buildModel n₁ pp₁ qq₁ = buildModel n₂ pp₂ qq₂ ∧
    ∀ m₁ m₂, buildModel n₁ pp₁ qq₁ = .ok m₁ → buildModel n₂ pp₂ qq₂ = .ok m₂ →
      ∀ st vals, solve m₁ st vals = solve m₂ st vals := by
  subst hn hpp
  have hq : qq₁ = qq₂ := funext hqq
  subst hq
  refine ⟨rfl, fun m₁ m₂ h₁ h₂ st vals => ?_⟩
  rw [h₁] at h₂
  cases h₂
  rfl

theorem buildModel_deterministic_witness :
    buildModel 3 examplePlant (fun t => some (examplePeriods t)) =
      buildModel 3 examplePlant (fun t => some (examplePeriods t)) ∧
    ∀ m₁ m₂,
      buildModel 3 examplePlant (fun t => some (examplePeriods t)) = .ok m₁ →
      buildModel 3 examplePlant (fun t => some (examplePeriods t)) = .ok m₂ →
      ∀ st vals, solve m₁ st vals = solve m₂ st vals :=
  buildModel_deterministic 3 3 examplePlant examplePlant
    (fun t => some (examplePeriods t)) (fun t => some (examplePeriods t))
    rfl rfl (fun _ => rfl)

theorem flatMap_eq_of_count_one {α : Type} (l : List ℕ) (t : ℕ) (xs : List α)
    (h : l.count t = 1) :
    (l.flatMap fun s => if s = t then xs else []) = xs := by
  induction l with
  | nil => simp at h
  | cons b l ih =>
    rw [List.flatMap_cons]
    by_cases hb : b = t
    · subst hb
      rw [List.count_cons_self] at h
      have hz : l.count b = 0 := by omega
      have hnot : b ∉ l := List.count_eq_zero.mp hz
      have hnil : (l.flatMap fun s => if s = b then xs else []) = [] := by
        simp only [List.flatMap_eq_nil_iff]
        intro x hx
        exact if_neg fun (he : x = b) => hnot (he ▸ hx)
      rw [if_pos rfl, hnil, List.append_nil]
    · rw [if_neg hb, List.nil_append]
      apply ih
      rwa [List.count_cons_of_ne fun he => hb he.symm] at h

theorem count_horizon_eq_one {t n : ℕ} (h1 : 1 ≤ t) (h2 : t ≤ n) :
    (horizon n).count t = 1 :=
  List.count_eq_one_of_mem (List.nodup_range' _ _) (mem_horizon.mpr ⟨h1, h2⟩)

/-- C3: For every time index `t` of the horizon, the built model declares
exactly one variable named `production t` — continuous (`NumVar`) with domain
`[0, maxOutput]` — and registers exactly two constraints mentioning
`production t`: `operating[t] * minOutput ≤ production[t]` and
`production[t] ≤ operating[t] * maxOutput`. -/
theorem production_var_and_bound_constraints (n : ℕ) (pp : PlantParams)
    (qq : ℕ → PeriodParam) (t : ℕ) (h1 : 1 ≤ t) (h2 : t ≤ n) :
    ((buildCore n pp qq).vars.filter fun d => d.v == Var.production t) =
      [⟨.production t, 0, pp.maxOutput, false⟩] ∧
    ((buildCore n pp qq).constraints.filter
        fun c => c.mentions (.production t)) =
      [.le (.mul pp.minOutput (.var (.operating t))) (.var (.production t)),
       .le (.var (.production t)) (.mul pp.maxOutput (.var (.operating t)))] := by
  have hcount := count_horizon_eq_one h1 h2
  constructor
  · show ((varDecls n pp).filter fun d => d.v == Var.production t) = _
    rw [varDecls, List.filter_flatMap]
    have heach : ∀ s,
        (List.filter (fun d => d.v == Var.production t)
          [⟨.operating s, 0, 1, true⟩, ⟨.start_up s, 0, 1, true⟩,
           ⟨.shut_down s, 0, 1, true⟩,
           ⟨.production s, 0, pp.maxOutput, false⟩] : List VarDecl) =
          if s = t then [⟨.production t, 0, pp.maxOutput, false⟩] else [] := by
      intro s
      by_cases hs : s = t
      · subst hs
        simp
      · simp [hs]
    simp only [heach]
    exact flatMap_eq_of_count_one _ _ _ hcount
  · show ((prodLimitConstrs n pp ++
        (commitConstrs n ++ [firstPeriodConstr])).filter
        fun c => c.mentions (.production t)) = _
    rw [List.filter_append, List.filter_append]
    have hcom : ((commitConstrs n).filter
        fun c => c.mentions (.production t)) = [] := by
      rw [List.filter_eq_nil_iff]
      intro c hc
      obtain ⟨s, -, rfl⟩ := List.mem_map.mp hc
      simp [Constr.mentions, LinExpr.mentions]
    have hfst : (([firstPeriodConstr] : List Constr).filter
        fun c => c.mentions (.production t)) = [] := by
      simp [firstPeriodConstr, Constr.mentions, LinExpr.mentions]
    rw [hcom, hfst, List.append_nil, List.append_nil]
    rw [prodLimitConstrs, List.filter_flatMap]
    have heach : ∀ s,
        (List.filter (fun c => c.mentions (.production t))
          [.le (.mul pp.minOutput (.var (.operating s))) (.var (.production s)),
           .le (.var (.production s))
             (.mul pp.maxOutput (.var (.operating s)))] : List Constr) =
          if s = t then
            [.le (.mul pp.minOutput (.var (.operating t)))
               (.var (.production t)),
             .le (.var (.production t))
               (.mul pp.maxOutput (.var (.operating t)))]
          else [] := by
      intro s
      by_cases hs : s = t
      · subst hs
        simp [Constr.mentions, LinExpr.mentions]
      · simp [Constr.mentions, LinExpr.mentions, hs]
    simp only [heach]
    exact flatMap_eq_of_count_one _ _ _ hcount

theorem production_var_and_bound_constraints_witness :
    (exampleModel.vars.filter fun d => d.v == Var.production 2) =
      [⟨.production 2, 0, 100, false⟩] ∧
    (exampleModel.constraints.filter fun c => c.mentions (.production 2)) =
      [.le (.mul 10 (.var (.operating 2))) (.var (.production 2)),
       .le (.var (.production 2)) (.mul 100 (.var (.operating 2)))] :=
  production_var_and_bound_constraints 3 examplePlant examplePeriods 2
    (by norm_num) (by norm_num)

end SpotOpt
